import Mathlib

/-!
Shallow embedding of the scientific field-visualization core of the
EMRenderer class (src/js/ui/mode-transition.js): marching-squares
iso-contour extraction (drawPotentialContours, drawContourSegment),
the flow-particle system (initFlowParticles, updateFlowParticles,
drawFlowParticles, drawFieldLines) and the default color map
(getScientificColor).  JS numbers are modelled by the rationals; the
non-finite branch of the sample clamp cannot arise for rationals, and
the range clamp to the interval from -1e6 to 1e6 is kept.  Randomness
(Math.random) is modelled by an injectable stream of draws, consumed
two per particle in creation order, as the code does.
-/

namespace EMRender

/-- A 2D point on the canvas. -/
structure Point where
  x : ℚ
  y : ℚ
deriving DecidableEq, Repr

/-- A contour line segment: an ordered pair of points, as emitted by
drawContourSegment via moveTo and lineTo. -/
structure Segment where
  p : Point
  q : Point
deriving DecidableEq, Repr

/-- The inline lerp helper of drawContourSegment:
lerp = (a, b, t) => a + (b - a) * t. -/
def lerp (a b t : ℚ) : ℚ := a + (b - a) * t

/-- The JS idiom `d || 1` on a number d: a zero denominator is replaced
by 1 (for rationals, 0 is the only falsy value; NaN does not exist). -/
def orOne (d : ℚ) : ℚ := if d = 0 then 1 else d

/-- The edge-crossing interpolation fraction of drawContourSegment:
(level - vA) / (vB - vA || 1), for the edge from corner value vA to
corner value vB. -/
def edgeFrac (level vA vB : ℚ) : ℚ := (level - vA) / orOne (vB - vA)

/-- EMRenderer.drawContourSegment (without the canvas calls): given the
cell origin (x, y), the cell size, the level, the four corner values and
the topology index idx, return the list of segments the 16-entry case
table emits for this cell.  Indices 0 and 15 fall to the default branch
(the JS object has no key for them) and emit nothing. -/
def contourSegments (x y size level v00 v10 v01 v11 : ℚ) : ℕ → List Segment := fun idx =>
  let top := lerp 0 size (edgeFrac level v00 v10)
  let bottom := lerp 0 size (edgeFrac level v01 v11)
  let left := lerp 0 size (edgeFrac level v00 v01)
  let right := lerp 0 size (edgeFrac level v10 v11)
  match idx with
  | 1 => [⟨⟨x, y + left⟩, ⟨x + top, y⟩⟩]
  | 2 => [⟨⟨x + top, y⟩, ⟨x + size, y + right⟩⟩]
  | 3 => [⟨⟨x, y + left⟩, ⟨x + size, y + right⟩⟩]
  | 4 => [⟨⟨x + size, y + right⟩, ⟨x + bottom, y + size⟩⟩]
  | 5 => [⟨⟨x, y + left⟩, ⟨x + top, y⟩⟩, ⟨⟨x + size, y + right⟩, ⟨x + bottom, y + size⟩⟩]
  | 6 => [⟨⟨x + top, y⟩, ⟨x + bottom, y + size⟩⟩]
  | 7 => [⟨⟨x, y + left⟩, ⟨x + bottom, y + size⟩⟩]
  | 8 => [⟨⟨x + bottom, y + size⟩, ⟨x, y + left⟩⟩]
  | 9 => [⟨⟨x + bottom, y + size⟩, ⟨x + top, y⟩⟩]
  | 10 => [⟨⟨x + top, y⟩, ⟨x + size, y + right⟩⟩, ⟨⟨x + bottom, y + size⟩, ⟨x, y + left⟩⟩]
  | 11 => [⟨⟨x + bottom, y + size⟩, ⟨x + size, y + right⟩⟩]
  | 12 => [⟨⟨x + size, y + right⟩, ⟨x, y + left⟩⟩]
  | 13 => [⟨⟨x + size, y + right⟩, ⟨x + top, y⟩⟩]
  | 14 => [⟨⟨x + top, y⟩, ⟨x, y + left⟩⟩]
  | _ => []

/-- The 4-bit marching-squares topology index of drawPotentialContours:
bit 1 for v00, bit 2 for v10, bit 4 for v11, bit 8 for v01, each set
iff the corner value is at least the level. -/
def topoIndex (level v00 v10 v01 v11 : ℚ) : ℕ :=
  (if level ≤ v00 then 1 else 0) + (if level ≤ v10 then 2 else 0) +
    (if level ≤ v11 then 4 else 0) + (if level ≤ v01 then 8 else 0)

/-- A rectangular grid of raw scalar samples (the values returned by
chargeSystem.potentialAt at the sample points), indexed row then
column. -/
structure ScalarGrid where
  rows : ℕ
  cols : ℕ
  val : ℕ → ℕ → ℚ

/-- The sample clamp of drawPotentialContours: non-finite values become
0 (vacuous for rationals) and the value is clamped into the interval
from -1000000 to 1000000. -/
def clampSample (v : ℚ) : ℚ := max (-1000000) (min 1000000 v)

/-- The clamped sample stored in potentialGrid at row j, column i. -/
def sampleAt (g : ScalarGrid) (j i : ℕ) : ℚ := clampSample (g.val j i)

/-- All clamped samples of the grid, rows outer and columns inner, in
the order the sampling loop of drawPotentialContours visits them. -/
def gridSamples (g : ScalarGrid) : List ℚ :=
  (List.range g.rows).flatMap fun j => (List.range g.cols).map fun i => sampleAt g j i

/-- The running minimum minV over all clamped samples (0 for an empty
grid; the renderer only ever builds grids with at least one sample). -/
def minV (g : ScalarGrid) : ℚ :=
  match gridSamples g with
  | [] => 0
  | a :: l => l.foldl min a

/-- The running maximum maxV over all clamped samples. -/
def maxV (g : ScalarGrid) : ℚ :=
  match gridSamples g with
  | [] => 0
  | a :: l => l.foldl max a

/-- The contour levels of drawPotentialContours: for i from 1 to
levelCount - 1, the value minV + (maxV - minV) * i / levelCount. -/
def levelsList (g : ScalarGrid) (levelCount : ℕ) : List ℚ :=
  (List.range (levelCount - 1)).map fun k =>
    minV g + (maxV g - minV g) * ((k + 1 : ℕ) : ℚ) / (levelCount : ℚ)

/-- The segments one cell emits for one level: drawContourSegment
applied at the cell origin (i * size, j * size) with the four clamped
corner samples and their topology index. -/
def cellSegments (g : ScalarGrid) (size level : ℚ) (j i : ℕ) : List Segment :=
  contourSegments ((i : ℚ) * size) ((j : ℚ) * size) size level
    (sampleAt g j i) (sampleAt g j (i + 1)) (sampleAt g (j + 1) i) (sampleAt g (j + 1) (i + 1))
    (topoIndex level (sampleAt g j i) (sampleAt g j (i + 1))
      (sampleAt g (j + 1) i) (sampleAt g (j + 1) (i + 1)))

/-- All segments one level produces: the cell loops of
drawPotentialContours, rows outer, columns inner, each up to the
second-to-last index. -/
def segmentsForLevel (g : ScalarGrid) (size level : ℚ) : List Segment :=
  (List.range (g.rows - 1)).flatMap fun j =>
    (List.range (g.cols - 1)).flatMap fun i => cellSegments g size level j i

/-- The contour computation of drawPotentialContours on an
already-sampled grid: empty when maxV equals minV, otherwise one entry
per generated level carrying that level's segments. -/
def computeContours (g : ScalarGrid) (levelCount : ℕ) (size : ℚ) : List (ℚ × List Segment) :=
  if maxV g = minV g then []
  else (levelsList g levelCount).map fun level => (level, segmentsForLevel g size level)

/-- A precomputed field line: an ordered point sequence and the polarity
of its originating source. -/
structure FieldLine where
  points : List Point
  fromPositive : Bool
deriving DecidableEq, Repr

/-- A flow particle, as pushed by initFlowParticles: its field line, its
normalized path position and its speed. -/
structure FlowParticle where
  line : FieldLine
  position : ℚ
  speed : ℚ
deriving DecidableEq, Repr

/-- Number of particles initFlowParticles creates for one field line:
zero when the line has fewer than 2 points, otherwise
min(8, ceil(points / 15)); for a natural n, ceil(n / 15) is
(n + 14) / 15 in natural division. -/
def particleCountFor (line : FieldLine) : ℕ :=
  if line.points.length < 2 then 0 else min 8 ((line.points.length + 14) / 15)

/-- The particles one line contributes, drawing random position and then
random speed from the stream r starting at stream index start: position
is r itself, speed is 0.3 + r * 0.4. -/
def mkParticles (line : FieldLine) (r : ℕ → ℚ) (start : ℕ) : List FlowParticle :=
  (List.range (particleCountFor line)).map fun i =>
    ⟨line, r (start + 2 * i), 3 / 10 + r (start + 2 * i + 1) * (4 / 10)⟩

/-- The line loop of initFlowParticles, threading the position of the
random stream across lines. -/
def initFlowAux (r : ℕ → ℚ) : List FieldLine → ℕ → List FlowParticle
  | [], _ => []
  | l :: ls, k => mkParticles l r k ++ initFlowAux r ls (k + 2 * particleCountFor l)

/-- EMRenderer.initFlowParticles: replace the entire pool, spawning
particleCountFor particles per line. -/
def initFlowParticles (fieldLines : List FieldLine) (r : ℕ → ℚ) : List FlowParticle :=
  initFlowAux r fieldLines 0

/-- The per-particle step of updateFlowParticles: add speed * dt to the
position, and reset the position to 0 when it strictly exceeds 1. -/
def FlowParticle.advance (p : FlowParticle) (dt : ℚ) : FlowParticle :=
  { p with position := if 1 < p.position + p.speed * dt then 0 else p.position + p.speed * dt }

/-- EMRenderer.updateFlowParticles: advance every particle in the
pool. -/
def updateFlowParticles (ps : List FlowParticle) (dt : ℚ) : List FlowParticle :=
  ps.map fun p => p.advance dt

/-- The particle-pool effect of EMRenderer.drawFlowParticles: when the
pool is empty and the supplied field-line list is not, seed the pool by
initFlowParticles before the dashes are drawn; the returned pool is the
one the draw loop then iterates. -/
def drawFlowParticles (pool : List FlowParticle) (fieldLines : List FieldLine)
    (r : ℕ → ℚ) : List FlowParticle :=
  if pool.length = 0 ∧ 0 < fieldLines.length then initFlowParticles fieldLines r else pool

/-- EMRenderer.drawFieldLines is a legacy alias that just calls
drawFlowParticles. -/
def drawFieldLines (pool : List FlowParticle) (fieldLines : List FieldLine)
    (r : ℕ → ℚ) : List FlowParticle :=
  drawFlowParticles pool fieldLines r

/-- JS Math.round for the nonnegative channel values produced by
getScientificColor: round half away from zero is floor(q + 1/2). -/
def jsRound (q : ℚ) : ℤ := ⌊q + 1 / 2⌋

/-- An RGB color with integer channels, the payload of the rgb(...)
string getScientificColor returns. -/
structure Color where
  r : ℤ
  g : ℤ
  b : ℤ
deriving DecidableEq, Repr

/-- EMRenderer.getScientificColor: below t = 0.5 blend with s = 2t from
blue toward a dark tone, at and above t = 0.5 blend with s = 2t - 1 from
a dark tone toward green. -/
def getScientificColor (t : ℚ) : Color :=
  if t < 1 / 2 then
    let s := t * 2
    ⟨jsRound (10 + s * 20), jsRound (10 + s * 20), jsRound (60 + (1 - s) * 132)⟩
  else
    let s := (t - 1 / 2) * 2
    ⟨jsRound (30 - s * 20), jsRound (30 + s * 145), jsRound (30 - s * 10)⟩

/-- Left-continuity of an integer-valued channel at the midpoint 1/2, in
the epsilon-delta sense over the rationals. -/
def LeftContinuousAtHalf (f : ℚ → ℤ) : Prop :=
  ∀ ε : ℚ, 0 < ε → ∃ δ : ℚ, 0 < δ ∧
    ∀ t : ℚ, 1 / 2 - δ < t → t < 1 / 2 → |(f t : ℚ) - (f (1 / 2) : ℚ)| < ε

/-- The segment count the 16-entry case table is specified to emit per
topology index. -/
def expectedSegCount : ℕ → ℕ
  | 1 => 1
  | 2 => 1
  | 3 => 1
  | 4 => 1
  | 5 => 2
  | 6 => 1
  | 7 => 1
  | 8 => 1
  | 9 => 1
  | 10 => 2
  | 11 => 1
  | 12 => 1
  | 13 => 1
  | 14 => 1
  | _ => 0

/-- The contour crossing point on the top edge of a cell. -/
def topPt (x y size level v00 v10 : ℚ) : Point :=
  ⟨x + lerp 0 size (edgeFrac level v00 v10), y⟩

/-- The contour crossing point on the bottom edge of a cell. -/
def bottomPt (x y size level v01 v11 : ℚ) : Point :=
  ⟨x + lerp 0 size (edgeFrac level v01 v11), y + size⟩

/-- The contour crossing point on the left edge of a cell. -/
def leftPt (x y size level v00 v01 : ℚ) : Point :=
  ⟨x, y + lerp 0 size (edgeFrac level v00 v01)⟩

/-- The contour crossing point on the right edge of a cell. -/
def rightPt (x y size level v10 v11 : ℚ) : Point :=
  ⟨x + size, y + lerp 0 size (edgeFrac level v10 v11)⟩

/-- C1: for every cell and level, the marching-squares lookup emits
segments exactly per the fixed 16-entry case table: topology indices 0
and 15 emit zero segments, each of the remaining 14 indices emits one
or two segments, and the saddle indices 5 and 10 each emit exactly two
segments with the table's fixed diagonal pairing (5 pairs the left edge
with the top and the right with the bottom; 10 pairs the top with the
right and the bottom with the left).  The topology index never leaves
the table. -/
theorem marching_squares_case_table (x y size level v00 v10 v01 v11 : ℚ) :
    (∀ idx : ℕ, idx ≤ 15 →
        (contourSegments x y size level v00 v10 v01 v11 idx).length = expectedSegCount idx)
    ∧ (∀ a b c d : ℚ, topoIndex level a b c d ≤ 15)
    ∧ contourSegments x y size level v00 v10 v01 v11 0 = []
    ∧ contourSegments x y size level v00 v10 v01 v11 15 = []
    ∧ (∀ idx : ℕ, 1 ≤ idx → idx ≤ 14 →
        1 ≤ (contourSegments x y size level v00 v10 v01 v11 idx).length ∧
          (contourSegments x y size level v00 v10 v01 v11 idx).length ≤ 2)
    ∧ contourSegments x y size level v00 v10 v01 v11 5
        = [⟨leftPt x y size level v00 v01, topPt x y size level v00 v10⟩,
           ⟨rightPt x y size level v10 v11, bottomPt x y size level v01 v11⟩]
    ∧ contourSegments x y size level v00 v10 v01 v11 10
        = [⟨topPt x y size level v00 v10, rightPt x y size level v10 v11⟩,
           ⟨bottomPt x y size level v01 v11, leftPt x y size level v00 v01⟩] := by
  refine ⟨?_, ?_, rfl, rfl, ?_, ?_, ?_⟩
  · intro idx h
    interval_cases idx <;> rfl
  · intro a b c d
    unfold topoIndex
    split_ifs <;> norm_num
  · intro idx h1 h2
    interval_cases idx <;> simp [contourSegments]
  · simp [contourSegments, leftPt, topPt, rightPt, bottomPt]
  · simp [contourSegments, leftPt, topPt, rightPt, bottomPt]

/-- Witness for C1 at a concrete cell: index 5 emits two segments and
index 7 emits between one and two. -/
theorem marching_squares_case_table_witness :
    (contourSegments 0 0 8 1 2 0 0 3 5).length = expectedSegCount 5
    ∧ 1 ≤ (contourSegments 0 0 8 1 2 0 0 3 7).length
    ∧ (contourSegments 0 0 8 1 2 0 0 3 7).length ≤ 2 :=
  ⟨(marching_squares_case_table 0 0 8 1 2 0 0 3).1 5 (by norm_num),
   ((marching_squares_case_table 0 0 8 1 2 0 0 3).2.2.2.2.1 7 (by norm_num) (by norm_num)).1,
   ((marching_squares_case_table 0 0 8 1 2 0 0 3).2.2.2.2.1 7 (by norm_num) (by norm_num)).2⟩

/-- C2: edge-crossing interpolation is total: the guarded denominator is
never zero, a zero difference of corner values is replaced by 1, and a
nonzero difference is used as is, so the contour computation never
divides by zero. -/
theorem edge_interpolation_total (level vA vB : ℚ) :
    orOne (vB - vA) ≠ 0
    ∧ (vB - vA = 0 → edgeFrac level vA vB = (level - vA) / 1)
    ∧ (vB - vA ≠ 0 → edgeFrac level vA vB = (level - vA) / (vB - vA)) := by
  refine ⟨?_, ?_, ?_⟩
  · unfold orOne
    split_ifs with h
    · norm_num
    · exact h
  · intro h
    unfold edgeFrac orOne
    rw [if_pos h]
  · intro h
    unfold edgeFrac orOne
    rw [if_neg h]

/-- Witness for C2 on a flat edge: the denominator guard fires and the
interpolation still produces a value. -/
theorem edge_interpolation_total_witness :
    orOne ((3 : ℚ) - 3) ≠ 0 ∧ edgeFrac 5 3 3 = (5 - 3) / 1 :=
  ⟨(edge_interpolation_total 5 3 3).1, (edge_interpolation_total 5 3 3).2.1 (by norm_num)⟩

/-- C3: a flat grid (clamped minimum equal to clamped maximum) yields an
empty contour result, with no levels and no segments, for every
levelCount. -/
theorem flat_grid_empty_contours (g : ScalarGrid) (levelCount : ℕ) (size : ℚ)
    (h : minV g = maxV g) : computeContours g levelCount size = [] := by
  unfold computeContours
  rw [if_pos h.symm]

/-- Witness for C3: a concrete 2 by 2 grid of constant value 7 produces
no contours. -/
theorem flat_grid_empty_contours_witness :
    computeContours ⟨2, 2, fun _ _ => 7⟩ 12 8 = [] :=
  flat_grid_empty_contours _ 12 8 (by
    norm_num [minV, maxV, gridSamples, sampleAt, clampSample, List.range_succ])

/-- C4: for a non-flat grid and levelCount at least 2, the contour
computation generates exactly levelCount - 1 iso-levels, the i-th being
minV + (maxV - minV) * i / levelCount for i from 1 to levelCount - 1,
each lying strictly between minV and maxV. -/
theorem contour_levels_evenly_spaced (g : ScalarGrid) (levelCount : ℕ) (size : ℚ)
    (hne : minV g < maxV g) (hlc : 2 ≤ levelCount) :
    (computeContours g levelCount size).length = levelCount - 1
    ∧ (computeContours g levelCount size).map Prod.fst
        = (List.range (levelCount - 1)).map (fun k =>
            minV g + (maxV g - minV g) * ((k + 1 : ℕ) : ℚ) / (levelCount : ℚ))
    ∧ ∀ level ∈ (computeContours g levelCount size).map Prod.fst,
        minV g < level ∧ level < maxV g := by
  have heq : (computeContours g levelCount size).map Prod.fst = levelsList g levelCount := by
    unfold computeContours
    rw [if_neg hne.ne', List.map_map]
    exact List.map_id _
  refine ⟨?_, ?_, ?_⟩
  · unfold computeContours
    rw [if_neg hne.ne', List.length_map]
    unfold levelsList
    rw [List.length_map, List.length_range]
  · rw [heq]
    rfl
  · intro level hlevel
    rw [heq] at hlevel
    unfold levelsList at hlevel
    rw [List.mem_map] at hlevel
    obtain ⟨k, hk, hfk⟩ := hlevel
    rw [List.mem_range] at hk
    subst hfk
    have hL : (0 : ℚ) < (levelCount : ℚ) := by
      have h0 : 0 < levelCount := by omega
      exact_mod_cast h0
    have hq1 : (0 : ℚ) < ((k + 1 : ℕ) : ℚ) := by exact_mod_cast Nat.succ_pos k
    have hq2 : ((k + 1 : ℕ) : ℚ) < (levelCount : ℚ) := by exact_mod_cast (by omega : k + 1 < levelCount)
    have hr : 0 < maxV g - minV g := by linarith
    constructor
    · have hpos : 0 < (maxV g - minV g) * ((k + 1 : ℕ) : ℚ) / (levelCount : ℚ) := by positivity
      linarith
    · have h1 : (maxV g - minV g) * ((k + 1 : ℕ) : ℚ) / (levelCount : ℚ) < maxV g - minV g := by
        rw [div_lt_iff₀ hL]
        have h2 := mul_lt_mul_of_pos_left hq2 hr
        linarith
      linarith

/-- Witness for C4: a concrete 1 by 2 grid with values 0 and 4 produces
exactly 3 levels for levelCount 4. -/
theorem contour_levels_evenly_spaced_witness :
    (computeContours ⟨1, 2, fun _ i => if i = 0 then 0 else 4⟩ 4 8).length = 4 - 1 :=
  (contour_levels_evenly_spaced ⟨1, 2, fun _ i => if i = 0 then 0 else 4⟩ 4 8
    (by norm_num [minV, maxV, gridSamples, sampleAt, clampSample, List.range_succ])
    (by norm_num)).1

/-- Two points with different x coordinates are different points. -/
lemma seg_ne_of_x {a b : Point} (h : a.x ≠ b.x) : a ≠ b := fun he => h (congrArg Point.x he)

/-- Two points with different y coordinates are different points. -/
lemma seg_ne_of_y {a b : Point} (h : a.y ≠ b.y) : a ≠ b := fun he => h (congrArg Point.y he)

/-- On an edge whose first corner is strictly below the level and whose
second corner is strictly above it, the interpolated offset lies
strictly inside the edge. -/
lemma interp_bound_lo_hi (size level vA vB : ℚ) (hs : 0 < size)
    (hA : vA < level) (hB : level < vB) :
    0 < lerp 0 size (edgeFrac level vA vB) ∧ lerp 0 size (edgeFrac level vA vB) < size := by
  have hd : 0 < vB - vA := by linarith
  have hfpos : 0 < edgeFrac level vA vB := by
    unfold edgeFrac orOne
    rw [if_neg hd.ne']
    exact div_pos (by linarith) hd
  have hflt : edgeFrac level vA vB < 1 := by
    unfold edgeFrac orOne
    rw [if_neg hd.ne', div_lt_one hd]
    linarith
  constructor
  · simp only [lerp, sub_zero, zero_add]
    exact mul_pos hs hfpos
  · simp only [lerp, sub_zero, zero_add]
    exact mul_lt_of_lt_one_right hs hflt

/-- On an edge whose first corner is strictly above the level and whose
second corner is strictly below it, the interpolated offset lies
strictly inside the edge. -/
lemma interp_bound_hi_lo (size level vA vB : ℚ) (hs : 0 < size)
    (hA : level < vA) (hB : vB < level) :
    0 < lerp 0 size (edgeFrac level vA vB) ∧ lerp 0 size (edgeFrac level vA vB) < size := by
  have hd : vB - vA < 0 := by linarith
  have hne : vB - vA ≠ 0 := hd.ne
  have hfpos : 0 < edgeFrac level vA vB := by
    unfold edgeFrac orOne
    rw [if_neg hne]
    exact div_pos_of_neg_of_neg (by linarith) hd
  have hflt : edgeFrac level vA vB < 1 := by
    unfold edgeFrac orOne
    rw [if_neg hne]
    have hkey : (level - vA) / (vB - vA) - 1 = (level - vB) / (vB - vA) := by
      field_simp
    have hneg : (level - vB) / (vB - vA) < 0 := div_neg_of_pos_of_neg (by linarith) hd
    linarith
  constructor
  · simp only [lerp, sub_zero, zero_add]
    exact mul_pos hs hfpos
  · simp only [lerp, sub_zero, zero_add]
    exact mul_lt_of_lt_one_right hs hflt

/-- When no corner value equals the level exactly, every segment the
cell emits at its own topology index has two distinct endpoints. -/
lemma contour_cell_nondegenerate (x y size level v00 v10 v01 v11 : ℚ)
    (hs : 0 < size) (h00 : v00 ≠ level) (h10 : v10 ≠ level)
    (h01 : v01 ≠ level) (h11 : v11 ≠ level) :
    ∀ s ∈ contourSegments x y size level v00 v10 v01 v11
        (topoIndex level v00 v10 v01 v11), s.p ≠ s.q := by
  by_cases b0 : level ≤ v00 <;> by_cases b1 : level ≤ v10 <;>
    by_cases b2 : level ≤ v11 <;> by_cases b3 : level ≤ v01
  · -- all corners above: index 15 emits nothing
    rw [show topoIndex level v00 v10 v01 v11 = 15 from by
          unfold topoIndex
          rw [if_pos b0, if_pos b1, if_pos b2, if_pos b3]]
    intro s hmem
    simp only [contourSegments, List.not_mem_nil] at hmem
  · -- index 7: left to bottom
    rw [show topoIndex level v00 v10 v01 v11 = 7 from by
          unfold topoIndex
          rw [if_pos b0, if_pos b1, if_pos b2, if_neg b3]]
    intro s hmem
    simp only [contourSegments, List.mem_singleton] at hmem
    subst hmem
    have hb := interp_bound_lo_hi size level v01 v11 hs (not_le.mp b3)
      (lt_of_le_of_ne b2 (Ne.symm h11))
    apply seg_ne_of_x
    show x ≠ x + lerp 0 size (edgeFrac level v01 v11)
    intro hq
    linarith [hb.1]
  · -- index 11: bottom to right
    rw [show topoIndex level v00 v10 v01 v11 = 11 from by
          unfold topoIndex
          rw [if_pos b0, if_pos b1, if_neg b2, if_pos b3]]
    intro s hmem
    simp only [contourSegments, List.mem_singleton] at hmem
    subst hmem
    have hb := interp_bound_hi_lo size level v10 v11 hs
      (lt_of_le_of_ne b1 (Ne.symm h10)) (not_le.mp b2)
    apply seg_ne_of_y
    show y + size ≠ y + lerp 0 size (edgeFrac level v10 v11)
    intro hq
    linarith [hb.2]
  · -- index 3: left to right
    rw [show topoIndex level v00 v10 v01 v11 = 3 from by
          unfold topoIndex
          rw [if_pos b0, if_pos b1, if_neg b2, if_neg b3]]
    intro s hmem
    simp only [contourSegments, List.mem_singleton] at hmem
    subst hmem
    apply seg_ne_of_x
    show x ≠ x + size
    intro hq
    linarith
  · -- index 13: right to top
    rw [show topoIndex level v00 v10 v01 v11 = 13 from by
          unfold topoIndex
          rw [if_pos b0, if_neg b1, if_pos b2, if_pos b3]]
    intro s hmem
    simp only [contourSegments, List.mem_singleton] at hmem
    subst hmem
    have hb := interp_bound_hi_lo size level v00 v10 hs
      (lt_of_le_of_ne b0 (Ne.symm h00)) (not_le.mp b1)
    apply seg_ne_of_x
    show x + size ≠ x + lerp 0 size (edgeFrac level v00 v10)
    intro hq
    linarith [hb.2]
  · -- index 5: the first saddle, left to top and right to bottom
    rw [show topoIndex level v00 v10 v01 v11 = 5 from by
          unfold topoIndex
          rw [if_pos b0, if_neg b1, if_pos b2, if_neg b3]]
    intro s hmem
    simp only [contourSegments, List.mem_cons, List.mem_singleton,
      List.not_mem_nil, or_false] at hmem
    rcases hmem with rfl | rfl
    · have hb := interp_bound_hi_lo size level v00 v01 hs
        (lt_of_le_of_ne b0 (Ne.symm h00)) (not_le.mp b3)
      apply seg_ne_of_y
      show y + lerp 0 size (edgeFrac level v00 v01) ≠ y
      intro hq
      linarith [hb.1]
    · have hb := interp_bound_lo_hi size level v10 v11 hs (not_le.mp b1)
        (lt_of_le_of_ne b2 (Ne.symm h11))
      apply seg_ne_of_y
      show y + lerp 0 size (edgeFrac level v10 v11) ≠ y + size
      intro hq
      linarith [hb.2]
  · -- index 9: bottom to top
    rw [show topoIndex level v00 v10 v01 v11 = 9 from by
          unfold topoIndex
          rw [if_pos b0, if_neg b1, if_neg b2, if_pos b3]]
    intro s hmem
    simp only [contourSegments, List.mem_singleton] at hmem
    subst hmem
    apply seg_ne_of_y
    show y + size ≠ y
    intro hq
    linarith
  · -- index 1: left to top
    rw [show topoIndex level v00 v10 v01 v11 = 1 from by
          unfold topoIndex
          rw [if_pos b0, if_neg b1, if_neg b2, if_neg b3]]
    intro s hmem
    simp only [contourSegments, List.mem_singleton] at hmem
    subst hmem
    have hb := interp_bound_hi_lo size level v00 v01 hs
      (lt_of_le_of_ne b0 (Ne.symm h00)) (not_le.mp b3)
    apply seg_ne_of_y
    show y + lerp 0 size (edgeFrac level v00 v01) ≠ y
    intro hq
    linarith [hb.1]
  · -- index 14: top to left
    rw [show topoIndex level v00 v10 v01 v11 = 14 from by
          unfold topoIndex
          rw [if_neg b0, if_pos b1, if_pos b2, if_pos b3]]
    intro s hmem
    simp only [contourSegments, List.mem_singleton] at hmem
    subst hmem
    have hb := interp_bound_lo_hi size level v00 v01 hs (not_le.mp b0)
      (lt_of_le_of_ne b3 (Ne.symm h01))
    apply seg_ne_of_y
    show y ≠ y + lerp 0 size (edgeFrac level v00 v01)
    intro hq
    linarith [hb.1]
  · -- index 6: top to bottom
    rw [show topoIndex level v00 v10 v01 v11 = 6 from by
          unfold topoIndex
          rw [if_neg b0, if_pos b1, if_pos b2, if_neg b3]]
    intro s hmem
    simp only [contourSegments, List.mem_singleton] at hmem
    subst hmem
    apply seg_ne_of_y
    show y ≠ y + size
    intro hq
    linarith
  · -- index 10: the second saddle, top to right and bottom to left
    rw [show topoIndex level v00 v10 v01 v11 = 10 from by
          unfold topoIndex
          rw [if_neg b0, if_pos b1, if_neg b2, if_pos b3]]
    intro s hmem
    simp only [contourSegments, List.mem_cons, List.mem_singleton,
      List.not_mem_nil, or_false] at hmem
    rcases hmem with rfl | rfl
    · have hb := interp_bound_lo_hi size level v00 v10 hs (not_le.mp b0)
        (lt_of_le_of_ne b1 (Ne.symm h10))
      apply seg_ne_of_x
      show x + lerp 0 size (edgeFrac level v00 v10) ≠ x + size
      intro hq
      linarith [hb.2]
    · have hb := interp_bound_hi_lo size level v01 v11 hs
        (lt_of_le_of_ne b3 (Ne.symm h01)) (not_le.mp b2)
      apply seg_ne_of_x
      show x + lerp 0 size (edgeFrac level v01 v11) ≠ x
      intro hq
      linarith [hb.1]
  · -- index 2: top to right
    rw [show topoIndex level v00 v10 v01 v11 = 2 from by
          unfold topoIndex
          rw [if_neg b0, if_pos b1, if_neg b2, if_neg b3]]
    intro s hmem
    simp only [contourSegments, List.mem_singleton] at hmem
    subst hmem
    have hb := interp_bound_lo_hi size level v00 v10 hs (not_le.mp b0)
      (lt_of_le_of_ne b1 (Ne.symm h10))
    apply seg_ne_of_x
    show x + lerp 0 size (edgeFrac level v00 v10) ≠ x + size
    intro hq
    linarith [hb.2]
  · -- index 12: right to left
    rw [show topoIndex level v00 v10 v01 v11 = 12 from by
          unfold topoIndex
          rw [if_neg b0, if_neg b1, if_pos b2, if_pos b3]]
    intro s hmem
    simp only [contourSegments, List.mem_singleton] at hmem
    subst hmem
    apply seg_ne_of_x
    show x + size ≠ x
    intro hq
    linarith
  · -- index 4: right to bottom
    rw [show topoIndex level v00 v10 v01 v11 = 4 from by
          unfold topoIndex
          rw [if_neg b0, if_neg b1, if_pos b2, if_neg b3]]
    intro s hmem
    simp only [contourSegments, List.mem_singleton] at hmem
    subst hmem
    have hb := interp_bound_lo_hi size level v10 v11 hs (not_le.mp b1)
      (lt_of_le_of_ne b2 (Ne.symm h11))
    apply seg_ne_of_y
    show y + lerp 0 size (edgeFrac level v10 v11) ≠ y + size
    intro hq
    linarith [hb.2]
  · -- index 8: bottom to left
    rw [show topoIndex level v00 v10 v01 v11 = 8 from by
          unfold topoIndex
          rw [if_neg b0, if_neg b1, if_neg b2, if_pos b3]]
    intro s hmem
    simp only [contourSegments, List.mem_singleton] at hmem
    subst hmem
    have hb := interp_bound_hi_lo size level v01 v11 hs
      (lt_of_le_of_ne b3 (Ne.symm h01)) (not_le.mp b2)
    apply seg_ne_of_x
    show x + lerp 0 size (edgeFrac level v01 v11) ≠ x
    intro hq
    linarith [hb.1]
  · -- all corners below: index 0 emits nothing
    rw [show topoIndex level v00 v10 v01 v11 = 0 from by
          unfold topoIndex
          rw [if_neg b0, if_neg b1, if_neg b2, if_neg b3]]
    intro s hmem
    simp only [contourSegments, List.not_mem_nil] at hmem

/-- C5 counterexample: on the non-constant 2 by 2 grid with samples 1,
0, 0, 12 and the default 12 levels, the first generated level is exactly
1, which equals the top-left corner sample; the saddle cell then emits
the zero-length segment from the origin to itself. -/
theorem contours_degenerate_segment_cex :
    minV ⟨2, 2, fun j i => if j = 0 then (if i = 0 then 1 else 0) else (if i = 0 then 0 else 12)⟩
        ≠ maxV ⟨2, 2, fun j i => if j = 0 then (if i = 0 then 1 else 0) else (if i = 0 then 0 else 12)⟩
    ∧ (1, segmentsForLevel
          ⟨2, 2, fun j i => if j = 0 then (if i = 0 then 1 else 0) else (if i = 0 then 0 else 12)⟩ 8 1)
        ∈ computeContours
          ⟨2, 2, fun j i => if j = 0 then (if i = 0 then 1 else 0) else (if i = 0 then 0 else 12)⟩ 12 8
    ∧ (⟨⟨0, 0⟩, ⟨0, 0⟩⟩ : Segment)
        ∈ segmentsForLevel
          ⟨2, 2, fun j i => if j = 0 then (if i = 0 then 1 else 0) else (if i = 0 then 0 else 12)⟩ 8 1
    ∧ (⟨⟨0, 0⟩, ⟨0, 0⟩⟩ : Segment).p = (⟨⟨0, 0⟩, ⟨0, 0⟩⟩ : Segment).q := by
  refine ⟨?_, ?_, ?_, rfl⟩
  · norm_num [minV, maxV, gridSamples, sampleAt, clampSample, List.range_succ]
  · norm_num [computeContours, levelsList, minV, maxV, gridSamples, sampleAt, clampSample,
      List.range_succ]
  · norm_num [segmentsForLevel, cellSegments, contourSegments, topoIndex, sampleAt, clampSample,
      edgeFrac, orOne, lerp, List.range_succ]

/-- C5 amended: computeContours can emit a zero-length segment exactly
when a corner sample equals a level; whenever no clamped sample equals
any level of the result, every emitted segment has two distinct
endpoints. -/
theorem contours_nondegenerate_off_levels (g : ScalarGrid) (levelCount : ℕ) (size : ℚ)
    (hs : 0 < size)
    (hnl : ∀ lp ∈ computeContours g levelCount size, ∀ j ∈ List.range g.rows,
        ∀ i ∈ List.range g.cols, sampleAt g j i ≠ lp.1) :
    ∀ lp ∈ computeContours g levelCount size, ∀ s ∈ lp.2, s.p ≠ s.q := by
  intro lp hlp s hsmem
  have hlp' := hlp
  unfold computeContours at hlp'
  by_cases hflat : maxV g = minV g
  · rw [if_pos hflat] at hlp'
    exact absurd hlp' (List.not_mem_nil _)
  · rw [if_neg hflat, List.mem_map] at hlp'
    obtain ⟨level, hlevel, heq⟩ := hlp'
    subst heq
    unfold segmentsForLevel at hsmem
    rw [List.mem_flatMap] at hsmem
    obtain ⟨j, hj, hsmem⟩ := hsmem
    rw [List.mem_flatMap] at hsmem
    obtain ⟨i, hi, hcell⟩ := hsmem
    rw [List.mem_range] at hj hi
    have hjr : j < g.rows := by omega
    have hj1 : j + 1 < g.rows := by omega
    have hic : i < g.cols := by omega
    have hi1 : i + 1 < g.cols := by omega
    have h00 := hnl _ hlp j (List.mem_range.mpr hjr) i (List.mem_range.mpr hic)
    have h10 := hnl _ hlp j (List.mem_range.mpr hjr) (i + 1) (List.mem_range.mpr hi1)
    have h01 := hnl _ hlp (j + 1) (List.mem_range.mpr hj1) i (List.mem_range.mpr hic)
    have h11 := hnl _ hlp (j + 1) (List.mem_range.mpr hj1) (i + 1) (List.mem_range.mpr hi1)
    unfold cellSegments at hcell
    exact contour_cell_nondegenerate _ _ _ _ _ _ _ _ hs h00 h10 h01 h11 s hcell

/-- Witness for the amended C5: on a concrete 2 by 2 grid with samples
0 and 10 in each row and a single level 5, the emitted segment from
point 4 0 to point 4 8 has distinct endpoints. -/
theorem contours_nondegenerate_off_levels_witness :
    (5, segmentsForLevel ⟨2, 2, fun _ i => if i = 0 then 0 else 10⟩ 8 5)
        ∈ computeContours ⟨2, 2, fun _ i => if i = 0 then 0 else 10⟩ 2 8
    ∧ (⟨⟨4, 0⟩, ⟨4, 8⟩⟩ : Segment)
        ∈ segmentsForLevel ⟨2, 2, fun _ i => if i = 0 then 0 else 10⟩ 8 5
    ∧ (⟨⟨4, 0⟩, ⟨4, 8⟩⟩ : Segment).p ≠ (⟨⟨4, 0⟩, ⟨4, 8⟩⟩ : Segment).q :=
  ⟨by
    norm_num [computeContours, levelsList, minV, maxV, gridSamples, sampleAt, clampSample,
      List.range_succ],
   by
    norm_num [segmentsForLevel, cellSegments, contourSegments, topoIndex, sampleAt, clampSample,
      edgeFrac, orOne, lerp, List.range_succ],
   contours_nondegenerate_off_levels ⟨2, 2, fun _ i => if i = 0 then 0 else 10⟩ 2 8
     (by norm_num)
     (by
      norm_num [computeContours, levelsList, minV, maxV, gridSamples, sampleAt, clampSample,
        List.range_succ, segmentsForLevel, cellSegments, contourSegments, topoIndex,
        edgeFrac, orOne, lerp])
     (5, segmentsForLevel ⟨2, 2, fun _ i => if i = 0 then 0 else 10⟩ 8 5)
     (by
      norm_num [computeContours, levelsList, minV, maxV, gridSamples, sampleAt, clampSample,
        List.range_succ])
     ⟨⟨4, 0⟩, ⟨4, 8⟩⟩
     (by
      norm_num [segmentsForLevel, cellSegments, contourSegments, topoIndex, sampleAt, clampSample,
        edgeFrac, orOne, lerp, List.range_succ])⟩

/-- For a natural n, the ceiling of n / 15 over the rationals is the
natural-division expression the embedding uses. -/
lemma ceil_div_fifteen (n : ℕ) : ⌈(n : ℚ) / 15⌉₊ = (n + 14) / 15 := by
  apply le_antisymm
  · rw [Nat.ceil_le, div_le_iff₀ (by norm_num : (0 : ℚ) < 15)]
    have h : n ≤ (n + 14) / 15 * 15 := by omega
    exact_mod_cast h
  · rcases Nat.eq_zero_or_pos ((n + 14) / 15) with h0 | h0
    · omega
    · have h1 : (n + 14) / 15 - 1 < ⌈(n : ℚ) / 15⌉₊ := by
        rw [Nat.lt_ceil, lt_div_iff₀ (by norm_num : (0 : ℚ) < 15)]
        have h2 : ((n + 14) / 15 - 1) * 15 < n := by omega
        exact_mod_cast h2
      omega

/-- One line always contributes exactly particleCountFor particles. -/
lemma length_mkParticles (line : FieldLine) (r : ℕ → ℚ) (start : ℕ) :
    (mkParticles line r start).length = particleCountFor line := by
  simp [mkParticles]

/-- The pool built by the seeding loop has one batch per line. -/
lemma length_initFlowAux (r : ℕ → ℚ) (lines : List FieldLine) :
    ∀ k, (initFlowAux r lines k).length = (lines.map particleCountFor).sum := by
  induction lines with
  | nil => intro k; rfl
  | cons l ls ih =>
    intro k
    simp [initFlowAux, length_mkParticles, ih]

/-- C6: seeding spawns, for each field line with at least 2 points,
exactly min(8, ceil(pointCount / 15)) particles and none for shorter
lines; an empty list yields an empty pool and a single 20-point line
yields exactly 2 particles. -/
theorem flow_particle_seed_counts (r : ℕ → ℚ) (lines : List FieldLine) :
    (initFlowParticles lines r).length
      = (lines.map fun l =>
          if l.points.length < 2 then 0 else min 8 ⌈(l.points.length : ℚ) / 15⌉₊).sum
    ∧ initFlowParticles [] r = []
    ∧ ∀ line : FieldLine, line.points.length = 20 →
        (initFlowParticles [line] r).length = 2 := by
  have hcount : ∀ l : FieldLine,
      particleCountFor l
        = if l.points.length < 2 then 0 else min 8 ⌈(l.points.length : ℚ) / 15⌉₊ := by
    intro l
    unfold particleCountFor
    rw [ceil_div_fifteen]
  refine ⟨?_, rfl, ?_⟩
  · rw [initFlowParticles, length_initFlowAux]
    congr 1
    exact List.map_congr_left fun l _ => hcount l
  · intro line h20
    simp [initFlowParticles, initFlowAux, length_mkParticles, particleCountFor, h20]

/-- Witness for C6: a 20-point line with a constant random stream spawns
exactly 2 particles. -/
theorem flow_particle_seed_counts_witness :
    (initFlowParticles [⟨List.replicate 20 ⟨0, 0⟩, true⟩] fun _ => 0).length = 2 :=
  (flow_particle_seed_counts (fun _ => 0) []).2.2 ⟨List.replicate 20 ⟨0, 0⟩, true⟩ (by simp)

/-- Every particle the seeding loop creates takes its position directly
from the random stream, so stream bounds carry over to positions. -/
lemma initFlowAux_position_bounds (r : ℕ → ℚ) (hr : ∀ n, 0 ≤ r n ∧ r n < 1)
    (lines : List FieldLine) :
    ∀ k, ∀ p ∈ initFlowAux r lines k, 0 ≤ p.position ∧ p.position < 1 := by
  induction lines with
  | nil => intro k p hp; simp [initFlowAux] at hp
  | cons l ls ih =>
    intro k p hp
    simp only [initFlowAux, List.mem_append] at hp
    rcases hp with hp | hp
    · simp only [mkParticles, List.mem_map] at hp
      obtain ⟨i, _, rfl⟩ := hp
      exact hr _
    · exact ih _ p hp

/-- C7 counterexample: with the constant random stream 1/2, a 20-point
line seeds two particles at position 1/2 with speed 1/2 (both values a
legal seed can draw); advancing by dt = 1 brings both raw positions to
exactly 1, which the strict wrap test keeps, so the pool leaves the
claimed interval from 0 inclusive to 1 exclusive. -/
theorem flow_position_unit_interval_cex :
    (updateFlowParticles
        (initFlowParticles [⟨List.replicate 20 ⟨0, 0⟩, true⟩] fun _ => 1 / 2) 1).map
        FlowParticle.position = [1, 1]
    ∧ ¬ ((1 : ℚ) < 1) := by
  constructor
  · norm_num [updateFlowParticles, initFlowParticles, initFlowAux, mkParticles,
      particleCountFor, FlowParticle.advance, List.range_succ]
  · norm_num

/-- C7 amended: seeding with a random stream in the unit interval places
every position in 0 inclusive to 1 exclusive, and advance with
nonnegative dt and speed maps positions in the closed interval from 0 to
1 back into it; position exactly 1 is reachable and kept, so the
maintained invariant is the closed interval, not the half-open one. -/
theorem flow_position_unit_interval_amended :
    (∀ (lines : List FieldLine) (r : ℕ → ℚ), (∀ n, 0 ≤ r n ∧ r n < 1) →
        ∀ p ∈ initFlowParticles lines r, 0 ≤ p.position ∧ p.position < 1)
    ∧ ∀ (p : FlowParticle) (dt : ℚ), 0 ≤ dt → 0 ≤ p.speed →
        0 ≤ p.position → p.position ≤ 1 →
        0 ≤ (p.advance dt).position ∧ (p.advance dt).position ≤ 1 := by
  constructor
  · intro lines r hr p hp
    exact initFlowAux_position_bounds r hr lines 0 p hp
  · intro p dt hdt hspeed hpos hle
    unfold FlowParticle.advance
    split_ifs with h
    · norm_num
    · constructor
      · have := mul_nonneg hspeed hdt
        simpa using by linarith
      · simpa using not_lt.mp h

/-- Witness for the amended C7: a concrete seeded particle has position
in the half-open unit interval, and a concrete advance keeps the closed
unit interval. -/
theorem flow_position_unit_interval_amended_witness :
    (0 ≤ (⟨⟨List.replicate 20 ⟨0, 0⟩, true⟩, 1 / 2, 1 / 2⟩ : FlowParticle).position
      ∧ (⟨⟨List.replicate 20 ⟨0, 0⟩, true⟩, 1 / 2, 1 / 2⟩ : FlowParticle).position < 1)
    ∧ 0 ≤ ((⟨⟨[], false⟩, 1 / 2, 1 / 2⟩ : FlowParticle).advance 1).position
      ∧ ((⟨⟨[], false⟩, 1 / 2, 1 / 2⟩ : FlowParticle).advance 1).position ≤ 1 :=
  ⟨flow_position_unit_interval_amended.1 [⟨List.replicate 20 ⟨0, 0⟩, true⟩] (fun _ => 1 / 2)
      (fun _ => by norm_num)
      ⟨⟨List.replicate 20 ⟨0, 0⟩, true⟩, 1 / 2, 1 / 2⟩
      (by norm_num [initFlowParticles, initFlowAux, mkParticles, particleCountFor,
        List.range_succ]),
   flow_position_unit_interval_amended.2 ⟨⟨[], false⟩, 1 / 2, 1 / 2⟩ 1
      (by norm_num) (by norm_num) (by norm_num) (by norm_num)⟩

/-- C8 counterexample: the spec example from position 0.95, speed 0.5,
dt 0.2 reaches raw position 1.05, and the code resets it to exactly 0,
not to the modular value 0.05. -/
theorem flow_wrap_modular_cex :
    (⟨⟨[], false⟩, 19 / 20, 1 / 2⟩ : FlowParticle).position
        + (⟨⟨[], false⟩, 19 / 20, 1 / 2⟩ : FlowParticle).speed * (1 / 5) = 21 / 20
    ∧ ((⟨⟨[], false⟩, 19 / 20, 1 / 2⟩ : FlowParticle).advance (1 / 5)).position = 0
    ∧ ((⟨⟨[], false⟩, 19 / 20, 1 / 2⟩ : FlowParticle).advance (1 / 5)).position ≠ 1 / 20 := by
  norm_num [FlowParticle.advance]

/-- C8 amended: when advance carries the raw position strictly past 1,
the position is reset to exactly 0, the path origin, which lies in the
half-open unit interval. -/
theorem flow_wrap_resets_to_zero (p : FlowParticle) (dt : ℚ)
    (h : 1 < p.position + p.speed * dt) :
    (p.advance dt).position = 0
    ∧ 0 ≤ (p.advance dt).position ∧ (p.advance dt).position < 1 := by
  unfold FlowParticle.advance
  rw [if_pos h]
  norm_num

/-- Witness for the amended C8 at the spec example: raw position 1.05
resets to 0. -/
theorem flow_wrap_resets_to_zero_witness :
    ((⟨⟨[], false⟩, 19 / 20, 1 / 2⟩ : FlowParticle).advance (1 / 5)).position = 0
    ∧ 0 ≤ ((⟨⟨[], false⟩, 19 / 20, 1 / 2⟩ : FlowParticle).advance (1 / 5)).position
    ∧ ((⟨⟨[], false⟩, 19 / 20, 1 / 2⟩ : FlowParticle).advance (1 / 5)).position < 1 :=
  flow_wrap_resets_to_zero ⟨⟨[], false⟩, 19 / 20, 1 / 2⟩ (1 / 5) (by norm_num)

/-- Below the midpoint the blue channel of getScientificColor never
drops under 60. -/
lemma blue_channel_lower_bound (t : ℚ) (ht : t < 1 / 2) :
    60 ≤ (getScientificColor t).b := by
  have heq : getScientificColor t
      = ⟨jsRound (10 + t * 2 * 20), jsRound (10 + t * 2 * 20),
          jsRound (60 + (1 - t * 2) * 132)⟩ := by
    unfold getScientificColor
    rw [if_pos ht]
  rw [heq]
  show (60 : ℤ) ≤ jsRound (60 + (1 - t * 2) * 132)
  unfold jsRound
  rw [Int.le_floor]
  have hpos : 0 ≤ (1 - t * 2) * 132 := mul_nonneg (by linarith) (by norm_num)
  push_cast
  linarith

/-- C9 counterexample: the blue channel of the default color map is not
left-continuous at the midpoint: it stays at 60 or above on the whole
left side while the midpoint value is 30. -/
theorem color_midpoint_continuity_cex :
    ¬ LeftContinuousAtHalf fun t => (getScientificColor t).b := by
  intro h
  obtain ⟨δ, hδ, H⟩ := h 20 (by norm_num)
  have ht2 : max (1 / 2 - δ / 2) 0 < 1 / 2 := max_lt (by linarith) (by norm_num)
  have ht1 : 1 / 2 - δ < max (1 / 2 - δ / 2) 0 :=
    lt_of_lt_of_le (by linarith) (le_max_left _ _)
  have hH := H _ ht1 ht2
  have hhalf : (getScientificColor (1 / 2)).b = 30 := by
    norm_num [getScientificColor, jsRound]
  have hft : 60 ≤ (getScientificColor (max (1 / 2 - δ / 2) 0)).b :=
    blue_channel_lower_bound _ ht2
  simp only at hH
  rw [hhalf, abs_lt] at hH
  have hcast : (60 : ℚ) ≤ ((getScientificColor (max (1 / 2 - δ / 2) 0)).b : ℚ) := by
    exact_mod_cast hft
  linarith [hH.2]

/-- C9 amended: the default color map sends t = 0 to the blue extreme
rgb(10,10,192) and t = 1 to the green extreme rgb(10,175,20), but it is
not continuous at the midpoint: the blue channel is 30 at t = 1/2 while
it stays at 60 or above for every t just below 1/2. -/
theorem color_endpoints_and_midpoint_jump :
    getScientificColor 0 = ⟨10, 10, 192⟩
    ∧ getScientificColor 1 = ⟨10, 175, 20⟩
    ∧ (getScientificColor (1 / 2)).b = 30
    ∧ ∀ t : ℚ, 99 / 200 ≤ t → t < 1 / 2 → 60 ≤ (getScientificColor t).b := by
  refine ⟨?_, ?_, ?_, ?_⟩
  · norm_num [getScientificColor, jsRound]
  · norm_num [getScientificColor, jsRound]
  · norm_num [getScientificColor, jsRound]
  · intro t _ h2
    exact blue_channel_lower_bound t h2

/-- Witness for the amended C9 just below the midpoint. -/
theorem color_endpoints_and_midpoint_jump_witness :
    60 ≤ (getScientificColor (499 / 1000)).b :=
  color_endpoints_and_midpoint_jump.2.2.2 (499 / 1000) (by norm_num) (by norm_num)

/-- C10: when the particle pool is empty and the supplied field-line
list is not, the draw routine first seeds the pool from those lines with
exactly the explicit seeding routine, and the legacy drawFieldLines path
does the same, so drawing never needs a prior explicit seed call. -/
theorem draw_seeds_empty_pool (pool : List FlowParticle) (fieldLines : List FieldLine)
    (r : ℕ → ℚ) (hpool : pool = []) (hlines : fieldLines ≠ []) :
    drawFlowParticles pool fieldLines r = initFlowParticles fieldLines r
    ∧ drawFieldLines pool fieldLines r = initFlowParticles fieldLines r := by
  subst hpool
  have hcond : ([] : List FlowParticle).length = 0 ∧ 0 < fieldLines.length :=
    ⟨rfl, List.length_pos.mpr hlines⟩
  constructor
  · unfold drawFlowParticles
    rw [if_pos hcond]
  · unfold drawFieldLines drawFlowParticles
    rw [if_pos hcond]

/-- Witness for C10: an empty pool with one concrete two-point line is
seeded on draw. -/
theorem draw_seeds_empty_pool_witness :
    drawFlowParticles [] [⟨[⟨0, 0⟩, ⟨1, 1⟩], true⟩] (fun _ => 0)
        = initFlowParticles [⟨[⟨0, 0⟩, ⟨1, 1⟩], true⟩] (fun _ => 0)
    ∧ drawFieldLines [] [⟨[⟨0, 0⟩, ⟨1, 1⟩], true⟩] (fun _ => 0)
        = initFlowParticles [⟨[⟨0, 0⟩, ⟨1, 1⟩], true⟩] (fun _ => 0) :=
  draw_seeds_empty_pool [] [⟨[⟨0, 0⟩, ⟨1, 1⟩], true⟩] (fun _ => 0) rfl (by simp)

end EMRender
